import Mathlib

/-!
Verification development for the incident-report-frontend repository.

We shallowly embed the data model and the pure state-transition /
derived-view logic of the React components and the API client layer:

* `src/types/portal.ts` — entity record shapes, the IncidentList
  filtering/grouping pipeline (`filteredAndGroupedIncidents`), the local
  delete handler, the two RegionList variants (structured-entries and
  raw-JSON locations editors) with their create/edit/assign handlers;
* `src/api/client.ts` — the transport error-message normalization of
  `request`;
* `src/components/RegionList.tsx` — the ManagerList create handler and
  its region-assignment toggle;
* `src/components/lifeguards/LifeguardList.tsx` — the fetch cycle shape.

Conventions of the embedding:

* JS strings become `String`; JS `Record<string, string>` objects become
  insertion-ordered association lists `List (String × String)`.
* `new Date(s).getTime()` is abstracted as a parameter
  `dateMs : String → Int`; all theorems are universally quantified over
  it (date strings are assumed to denote valid dates, so that the JS
  comparators are consistent).
* `Array.prototype.sort` with a consistent comparator is, per the
  ECMAScript 2019 specification, a stable sort; we model it with
  `List.insertionSort r` where `r a b` means "a may be placed before b",
  i.e. `r a b ↔ comparator a b ≤ 0`.
* Asynchronous handlers are split into their pure decision part (which
  network call is issued, or which validation error is produced) and the
  pure state update applied on a given server response.
-/

/-- Incident record. The TypeScript interface `IncidentSummary` is
referenced but its declaration file is not part of the sources; the
fields are those used by `src/types/portal.ts` and listed by the spec
(§3 Data model, Incident). All fields are strings as delivered by the
JSON API. -/
structure IncidentSummary where
  id : String
  group_id : String
  person_involved_name : String
  date_of_incident : String
  region_id : String
  employee_completing_report : String
  incident_summary : String
  state : String
  created : String
deriving Repr, DecidableEq

/-- The tri-state status filter of the IncidentList
(`src/types/portal.ts:124`). -/
inductive StatusFilter where
  | all
  | done
  | unfinished
deriving Repr, DecidableEq

/-- The four filter states of the IncidentList
(`src/types/portal.ts:121-124`). Empty strings mean "inactive", matching
JS falsiness of `''`. -/
structure Filters where
  searchName : String
  filterDate : String
  filterRegion : String
  filterStatus : StatusFilter
deriving Repr, DecidableEq

/-- JS `haystack.includes(needle)`: substring containment. -/
def jsIncludes (haystack needle : String) : Bool :=
  decide (needle.data <:+: haystack.data)

/-- The filter predicate of `filteredAndGroupedIncidents`
(`src/types/portal.ts:165-186`), translated clause by clause: a chain of
early `return false` guards. A JS string is truthy iff nonempty. -/
def incidentPasses (f : Filters) (incident : IncidentSummary) : Bool :=
  if f.searchName != "" &&
      !(jsIncludes incident.person_involved_name.toLower f.searchName.toLower) then
    false
  else if f.filterDate != "" && incident.date_of_incident != f.filterDate then
    false
  else if f.filterRegion != "" && incident.region_id != f.filterRegion then
    false
  else if f.filterStatus == StatusFilter.done && incident.state != "done" then
    false
  else if f.filterStatus == StatusFilter.unfinished && incident.state == "done" then
    false
  else
    true

/-- One step of building the `groupMap` of `src/types/portal.ts:189-196`:
a JS `Map` keeps keys in insertion order, and `push` appends to the
per-key array. -/
def insertGrouped (groupId : String) (incident : IncidentSummary) :
    List (String × List IncidentSummary) → List (String × List IncidentSummary)
  | [] => [(groupId, [incident])]
  | (k, members) :: rest =>
    if k == groupId then (k, members ++ [incident]) :: rest
    else (k, members) :: insertGrouped groupId incident rest

/-- The `groupMap` construction of `src/types/portal.ts:189-196`
(`filtered.forEach` pushing each incident under its `group_id`),
followed by `Array.from(groupMap.entries())`. -/
def groupByGroupId (incidents : List IncidentSummary) :
    List (String × List IncidentSummary) :=
  incidents.foldl (fun acc incident => insertGrouped incident.group_id incident acc) []

/-- A rendered group: `interface IncidentGroup`
(`src/types/portal.ts:109-112`). -/
structure IncidentGroup where
  groupId : String
  incidents : List IncidentSummary
deriving Repr, DecidableEq

/-- Order relation realized by the member comparator
`(a, b) => new Date(b.date_of_incident).getTime() - new Date(a.date_of_incident).getTime()`
(`src/types/portal.ts:201-203`): `a` may precede `b` iff the comparator
value is `≤ 0`, i.e. dates descending. -/
def memberBefore (dateMs : String → Int) (a b : IncidentSummary) : Prop :=
  dateMs b.date_of_incident ≤ dateMs a.date_of_incident

instance (dateMs : String → Int) : DecidableRel (memberBefore dateMs) :=
  fun a b => Int.decLe (dateMs b.date_of_incident) (dateMs a.date_of_incident)

/-- The date key used by the group comparator: `a.incidents[0]` of
`src/types/portal.ts:207-211`. Groups produced by the pipeline are never
empty, so the `[]` default is never reached there. -/
def headDateMs (dateMs : String → Int) (g : IncidentGroup) : Int :=
  match g.incidents with
  | [] => 0
  | i :: _ => dateMs i.date_of_incident

/-- Order relation realized by the group comparator of
`src/types/portal.ts:207-211` (most-recent-first by the date of
`incidents[0]`). -/
def groupBefore (dateMs : String → Int) (a b : IncidentGroup) : Prop :=
  headDateMs dateMs b ≤ headDateMs dateMs a

instance (dateMs : String → Int) : DecidableRel (groupBefore dateMs) :=
  fun a b => Int.decLe (headDateMs dateMs b) (headDateMs dateMs a)

/-- The derived incident view `filteredAndGroupedIncidents`
(`src/types/portal.ts:163-214`): filter, group by `group_id`, sort each
group's members by date descending, sort groups by their first member's
date descending. -/
def filteredAndGroupedIncidents (dateMs : String → Int) (f : Filters)
    (incidents : List IncidentSummary) : List IncidentGroup :=
  let filtered := incidents.filter (incidentPasses f)
  let groups := (groupByGroupId filtered).map fun kv =>
    IncidentGroup.mk kv.1 (kv.2.insertionSort (memberBefore dateMs))
  groups.insertionSort (groupBefore dateMs)

/-! ### Spec-side view (for the refinement claim C1)

The following definitions follow the spec's words (§4.4 / §8), to be
compared with the code-derived pipeline above. -/

/-- Written from the spec: "keeping exactly the incidents that satisfy
every active predicate, where the name predicate is case-insensitive
substring match on `person_involved_name`, the date and region
predicates are exact equality, and under the status filter any state
other than the literal string `"done"` counts as unfinished"
(AND semantics across filter types). -/
def specPasses (f : Filters) (i : IncidentSummary) : Bool :=
  (f.searchName == "" || jsIncludes i.person_involved_name.toLower f.searchName.toLower) &&
  (f.filterDate == "" || i.date_of_incident == f.filterDate) &&
  (f.filterRegion == "" || i.region_id == f.filterRegion) &&
  (match f.filterStatus with
   | StatusFilter.all => true
   | StatusFilter.done => i.state == "done"
   | StatusFilter.unfinished => i.state != "done")

/-- Keys of a list in first-occurrence order. -/
def firstOccKeys : List String → List String
  | [] => []
  | k :: ks => k :: (firstOccKeys ks).filter (fun x => x != k)

/-- Written from the spec: "partitioning the filtered incidents into
groups keyed by `group_id`" — one group per distinct key, holding the
incidents with that key in their original order, keys in
first-occurrence order. -/
def groupByKeys (l : List IncidentSummary) : List (String × List IncidentSummary) :=
  (firstOccKeys (l.map (·.group_id))).map fun k =>
    (k, l.filter (fun i => i.group_id == k))

/-- Written from the spec: a group's "most-recent member's
`date_of_incident`" — the maximum date value over its members. -/
def mostRecentMs (dateMs : String → Int) (g : IncidentGroup) : Int :=
  ((g.incidents.map (fun i => dateMs i.date_of_incident)).max?).getD 0

/-- Written from the spec: "sorting the groups by their most-recent
member's `date_of_incident` descending". -/
def specGroupBefore (dateMs : String → Int) (a b : IncidentGroup) : Prop :=
  mostRecentMs dateMs b ≤ mostRecentMs dateMs a

instance (dateMs : String → Int) : DecidableRel (specGroupBefore dateMs) :=
  fun a b => Int.decLe (mostRecentMs dateMs b) (mostRecentMs dateMs a)

/-- Written from the spec (§4.4 steps 1-4): the derived incident view as
the spec describes it. -/
def specGroupedView (dateMs : String → Int) (f : Filters)
    (incidents : List IncidentSummary) : List IncidentGroup :=
  let filtered := incidents.filter (specPasses f)
  let groups := (groupByKeys filtered).map fun kv =>
    IncidentGroup.mk kv.1 (kv.2.insertionSort (memberBefore dateMs))
  groups.insertionSort (specGroupBefore dateMs)

/-! ### Entity records (`src/types/portal.ts:1-95`) -/

/-- `interface ManagerSummary` (`src/types/portal.ts:36-41`). -/
structure ManagerSummary where
  pk : String
  name : String
  email : String
  id : String
deriving Repr, DecidableEq

/-- `interface RegionSummary` (`src/types/portal.ts:29-34`). A JS
`Record<string, string>` is an insertion-ordered association list. -/
structure RegionSummary where
  pk : String
  slug : String
  locations : List (String × String)
  id : String
deriving Repr, DecidableEq

/-- `interface RegionRead` (`src/types/portal.ts:46-49,67-72`). -/
structure RegionRead where
  slug : String
  locations : List (String × String)
  pk : String
  id : String
  created : String
  managers : List ManagerSummary
deriving Repr, DecidableEq

/-- `interface ManagerRead` (`src/types/portal.ts:88-95`). -/
structure ManagerRead where
  pk : String
  name : String
  email : String
  regions : List RegionSummary
  id : String
  created : String
deriving Repr, DecidableEq

/-! ### Incident delete handler (`src/types/portal.ts:216-225`) -/

/-- The local-state update of `handleDelete` in the IncidentList on a
successful `deleteIncident` call:
`setIncidents((prev) => prev.filter((inc) => inc.id !== id))`
(`src/types/portal.ts:220`). -/
def handleDeleteIncidentApply (incidents : List IncidentSummary) (id : String) :
    List IncidentSummary :=
  incidents.filter (fun inc => inc.id != id)

/-! ### Region/Manager assignment toggles (C4) -/

/-- A single relationship-mutation round trip:
`POST` or `DELETE /regions/{regionId}/managers/{managerId}`
(`src/api/regions.ts`, `assignManagerToRegion` / `unassignManagerFromRegion`). -/
inductive AssignCall where
  | assign (regionId managerId : String)
  | unassign (regionId managerId : String)
deriving Repr, DecidableEq

/-- The call issued by `toggleManagerAssignment`
(`src/types/portal.ts:625-632`): exactly one of the two client functions
is awaited, chosen by
`const isAssigned = region.managers.some((m) => m.id === manager.id)`. -/
def toggleManagerAssignmentCall (region : RegionRead) (manager : ManagerSummary) :
    AssignCall :=
  if region.managers.any (fun m => m.id == manager.id) then
    AssignCall.unassign region.id manager.id
  else
    AssignCall.assign region.id manager.id

/-- The collections owned by the RegionList component
(`src/types/portal.ts:456-457`). -/
structure RegionListState where
  regions : List RegionRead
  allManagers : List ManagerSummary
deriving Repr, DecidableEq

/-- The state update of `toggleManagerAssignment` on success
(`src/types/portal.ts:634`):
`setRegions((prev) => prev.map((r) => (r.id === region.id ? updated : r)))`.
No other state of the component is written. -/
def toggleManagerAssignmentApply (s : RegionListState) (region : RegionRead)
    (updated : RegionRead) : RegionListState :=
  { s with regions := s.regions.map (fun r => if r.id == region.id then updated else r) }

/-- The collections owned by the ManagerList component
(`src/components/RegionList.tsx:217-218`). -/
structure ManagerListState where
  managers : List ManagerRead
  allRegions : List RegionRead
deriving Repr, DecidableEq

/-- The call issued by `toggleRegionAssignment` in the ManagerList
(`src/components/RegionList.tsx:360-367`), chosen by
`const isAssigned = manager.regions.some((r) => r.id === region.id)`. -/
def toggleRegionAssignmentCall (manager : ManagerRead) (region : RegionRead) :
    AssignCall :=
  if manager.regions.any (fun r => r.id == region.id) then
    AssignCall.unassign region.id manager.id
  else
    AssignCall.assign region.id manager.id

/-- The state update of `toggleRegionAssignment` on success
(`src/components/RegionList.tsx:368-370`): the handler discards the
response and runs `await fetchData()`, which replaces both collections
with freshly fetched ones (`src/components/RegionList.tsx:244-249`). -/
def toggleRegionAssignmentApply (_s : ManagerListState)
    (fetchedManagers : List ManagerRead) (fetchedRegions : List RegionRead) :
    ManagerListState :=
  { managers := fetchedManagers, allRegions := fetchedRegions }

/-! ### Create handlers (C5, C6) -/

/-- JS `String.prototype.trim`: strip leading and trailing whitespace.
(Defined on the character list so that concrete instances compute.) -/
def jsTrim (s : String) : String :=
  ⟨((s.data.dropWhile Char.isWhitespace).reverse.dropWhile Char.isWhitespace).reverse⟩

/-- Outcome of the synchronous prefix of a create/save handler: either a
client-side validation error is set and the handler returns before any
network call, or the network call is issued with the given payload. -/
inductive CreateOutcome (π : Type) where
  | validationError (message : String)
  | callIssued (payload : π)
deriving Repr, DecidableEq

/-- One row of the structured locations editor: `interface LocationEntry`
(`src/types/portal.ts:434-437`). -/
structure LocationEntry where
  name : String
  address : String
deriving Repr, DecidableEq

/-- JS `result[k] = v` on a `Record<string, string>`: an existing key
keeps its position and gets the new value, a new key is appended. -/
def setRecordKey (m : List (String × String)) (k v : String) :
    List (String × String) :=
  if m.any (fun kv => kv.1 == k) then
    m.map (fun kv => if kv.1 == k then (k, v) else kv)
  else
    m ++ [(k, v)]

/-- `arrayToLocations` (`src/types/portal.ts:445-453`): entries with a
nonblank trimmed name are written into the record, trimmed. -/
def arrayToLocations (entries : List LocationEntry) : List (String × String) :=
  entries.foldl
    (fun acc e =>
      if jsTrim e.name != "" then setRecordKey acc (jsTrim e.name) (jsTrim e.address) else acc)
    []

/-- Payload of `createRegion` as built by the structured-entries create
handler (`src/types/portal.ts:516-519`). -/
structure RegionPayloadStructured where
  slug : String
  locations : List (String × String)
deriving Repr, DecidableEq

/-- The synchronous validation prefix of `handleCreate` in the
structured-entries RegionList variant (`src/types/portal.ts:499-523`):
slug required, then at least one location with a nonblank name required,
then `createRegion(payload)` is issued. -/
def handleCreateRegionStructured (newSlug : String)
    (newLocations : List LocationEntry) : CreateOutcome RegionPayloadStructured :=
  if jsTrim newSlug == "" then
    CreateOutcome.validationError "Slug is required"
  else if (newLocations.filter (fun loc => jsTrim loc.name != "")).length == 0 then
    CreateOutcome.validationError "At least one location with a name is required"
  else
    CreateOutcome.callIssued ⟨jsTrim newSlug, arrayToLocations newLocations⟩

/-- On success the created region is appended to local state without a
re-fetch: `setRegions((prev) => [...prev, newRegion])`
(`src/types/portal.ts:524`, likewise `src/types/portal.ts:1008`). -/
def appendRegion (regions : List RegionRead) (newRegion : RegionRead) :
    List RegionRead :=
  regions ++ [newRegion]

/-- Payload of `createManager` as built by the ManagerList create handler
(`src/components/RegionList.tsx:265-269`). -/
structure ManagerPayload where
  name : String
  email : String
  region_slugs : List String
deriving Repr, DecidableEq

/-- The synchronous validation prefix of `handleCreate` in the ManagerList
(`src/components/RegionList.tsx:261-286`): trimmed name required, then
trimmed email required, then a nonempty region selection required, then
`createManager(payload)` is issued. -/
def handleCreateManager (newName newEmail : String)
    (newRegionSlugs : List String) : CreateOutcome ManagerPayload :=
  if jsTrim newName == "" then
    CreateOutcome.validationError "Name is required"
  else if jsTrim newEmail == "" then
    CreateOutcome.validationError "Email is required"
  else if newRegionSlugs.length == 0 then
    CreateOutcome.validationError "At least one region must be selected"
  else
    CreateOutcome.callIssued ⟨jsTrim newName, jsTrim newEmail, newRegionSlugs⟩

/-! ### JSON values and the transport error normalization (C3, C10)

`JSON.parse` is a platform builtin; handlers taking free-text JSON are
embedded at the parse boundary: they receive the parse result, an
`Option Json` where `none` models a parse failure (thrown
`SyntaxError`). -/

/-- A parsed JSON value. Numbers are modeled as integers (no claim
involves fractional values). -/
inductive Json where
  | null
  | bool (b : Bool)
  | num (n : Int)
  | str (s : String)
  | arr (elems : List Json)
  | obj (fields : List (String × Json))
deriving Repr

/-- JS truthiness of a parsed JSON value. -/
def jsTruthy : Json → Bool
  | Json.null => false
  | Json.bool b => b
  | Json.num n => n != 0
  | Json.str s => s != ""
  | Json.arr _ => true
  | Json.obj _ => true

mutual

/-- JS `String(v)` as applied by `Array.prototype.join` to an array
element: `null` (and `undefined`) become the empty string, nested arrays
join recursively, objects convert to `"[object Object]"`. -/
def jsArrElemString : Json → String
  | Json.null => ""
  | Json.bool true => "true"
  | Json.bool false => "false"
  | Json.num n => toString n
  | Json.str s => s
  | Json.arr elems => String.intercalate "," (jsArrElemStrings elems)
  | Json.obj _ => "[object Object]"

/-- Elementwise `jsArrElemString` over an array body. -/
def jsArrElemStrings : List Json → List String
  | [] => []
  | x :: rest => jsArrElemString x :: jsArrElemStrings rest

end

/-- JS `String(v)` for a parsed JSON value. An array converts by
`join(",")`, in which `null` elements become empty strings; an object
converts to `"[object Object]"`. -/
def jsToString : Json → String
  | Json.null => "null"
  | Json.bool true => "true"
  | Json.bool false => "false"
  | Json.num n => toString n
  | Json.str s => s
  | Json.arr elems => String.intercalate "," (jsArrElemStrings elems)
  | Json.obj _ => "[object Object]"

/-- JS member access `v.key` on a parsed JSON value: a field of an
object, `undefined` (here `none`) otherwise. Access on `null` throws and
is handled at use sites. -/
def jsonField (v : Json) (key : String) : Option Json :=
  match v with
  | Json.obj fields => (fields.find? (fun kv => kv.1 == key)).map (fun kv => kv.2)
  | _ => none

/-- The per-element message extraction `d.msg ?? d` of
`src/api/client.ts:44`, stringified as by `Array.prototype.join`.
Returns `none` for a `null` element, on which `d.msg` would throw a
`TypeError` (caught by the surrounding `try`). `??` falls back when
`msg` is absent or `null`. -/
def detailElemMsg : Json → Option String
  | Json.null => none
  | d =>
    some
      (match jsonField d "msg" with
       | some Json.null => jsToString d
       | none => jsToString d
       | some v => jsToString v)

/-- The error message computed by `request` for a non-2xx response
(`src/api/client.ts:39-50`): start from the generic message; if the body
parses and `data?.detail` is truthy, replace it with the joined element
messages when `detail` is an array (unless that evaluation throws), and
with `String(detail)` otherwise. -/
def errorMessage (status : Nat) (body : Option Json) : String :=
  let fallback := "Request failed with status " ++ toString status
  match body with
  | none => fallback
  | some data =>
    match jsonField data "detail" with
    | none => fallback
    | some detail =>
      if !(jsTruthy detail) then fallback
      else
        match detail with
        | Json.arr elems =>
          if elems.all (fun d => (detailElemMsg d).isSome) then
            String.intercalate ", " (elems.map (fun d => (detailElemMsg d).getD ""))
          else fallback
        | other => jsToString other

/-- Outcome of one `request` round trip (`src/api/client.ts:16-61`),
given the response's status and parsed body. The success value carried
by a non-204 response is the parsed body itself. -/
inductive RequestOutcome where
  | success (parsed : Option Json)
  | failure (message : String)
deriving Repr

/-- `request` (`src/api/client.ts:36-60`): `response.ok` is status
200-299; a non-ok response always throws an `Error` carrying
`errorMessage`; a `204` resolves without a value. -/
def request (status : Nat) (body : Option Json) : RequestOutcome :=
  if !(200 ≤ status && status ≤ 299) then
    RequestOutcome.failure (errorMessage status body)
  else if status == 204 then
    RequestOutcome.success none
  else
    RequestOutcome.success body

/-! ### Raw-JSON locations validation and create handler (C5, C10) -/

/-- JS `typeof` of a parsed JSON value; note `typeof null` is
`"object"`. -/
def jsTypeof : Json → String
  | Json.null => "object"
  | Json.bool _ => "boolean"
  | Json.num _ => "number"
  | Json.str _ => "string"
  | Json.arr _ => "object"
  | Json.obj _ => "object"

/-- JS `Array.isArray`. -/
def jsIsArray : Json → Bool
  | Json.arr _ => true
  | _ => false

/-- The locations validation shared by the raw-JSON editors
(`src/types/portal.ts:984-993` and `src/types/portal.ts:1049-1058`,
`src/components/RegionForm.tsx:36-46`, `src/components/RegionList.tsx:68-77`):
the text must parse, and the parsed value must satisfy
`typeof locations === 'object' && !Array.isArray(locations)`. -/
def locationsRawAccepted (parsed : Option Json) : Bool :=
  match parsed with
  | none => false
  | some j => !(jsTypeof j != "object" || jsIsArray j)

/-- Payload of `createRegion` as built by the raw-JSON create handler
(`src/types/portal.ts:995-998`); `locations` is whatever value the text
parsed to. -/
structure RegionPayloadRaw where
  slug : String
  locations : Json
deriving Repr

/-- The synchronous validation prefix of `handleCreate` in the raw-JSON
RegionList variant (`src/types/portal.ts:980-1007`): the JSON
parse/shape check runs first (its failures are reported as
`Invalid JSON: ...`), then the trimmed slug is required, then
`createRegion(payload)` is issued. There is no check on the number of
location entries. -/
def handleCreateRegionRaw (newSlug : String) (parsed : Option Json) :
    CreateOutcome RegionPayloadRaw :=
  match parsed with
  | none => CreateOutcome.validationError "Invalid JSON: SyntaxError"
  | some j =>
    if jsTypeof j != "object" || jsIsArray j then
      CreateOutcome.validationError "Invalid JSON: Locations must be a JSON object"
    else if jsTrim newSlug == "" then
      CreateOutcome.validationError "Slug is required"
    else
      CreateOutcome.callIssued ⟨jsTrim newSlug, j⟩

/-! ### Fetch cycle (C8) -/

/-- The fetch-related state of an entity list component: its own
collection, the lookup collection fetched alongside it, the loading
flag and the error message (e.g.
`src/components/lifeguards/LifeguardList.tsx:19-22`,
`src/types/portal.ts:115-118`). -/
structure FetchState (α β : Type) where
  items : List α
  lookups : List β
  loading : Bool
  error : Option String
deriving Repr, DecidableEq

/-- The synchronous prefix of `fetchData`: `setLoading(true);
setError(null)` (`src/components/lifeguards/LifeguardList.tsx:41-42`). -/
def startFetch {α β : Type} (s : FetchState α β) : FetchState α β :=
  { s with loading := true, error := none }

/-- The continuation of `fetchData` once the joined promise of
`Promise.all([listItems(), listLookups()])` settles
(`src/components/lifeguards/LifeguardList.tsx:43-54`): on success both
collections are replaced; on rejection only the error message is set;
`finally` clears the loading flag. -/
def finishFetch {α β : Type} (s : FetchState α β)
    (result : Except String (List α × List β)) : FetchState α β :=
  match result with
  | Except.ok (xs, ys) => { s with items := xs, lookups := ys, loading := false }
  | Except.error msg => { s with error := some msg, loading := false }

/-- A whole fetch cycle. -/
def fetchCycle {α β : Type} (s : FetchState α β)
    (result : Except String (List α × List β)) : FetchState α β :=
  finishFetch (startFetch s) result

/-! ### Edit/assignment panel state (C9) -/

/-- The row-panel state of a list component: which row is in edit mode
and which row has the assignment panel open
(`src/types/portal.ts:469,476`;
`src/components/RegionList.tsx:231,238`). -/
structure PanelState where
  editingId : Option String
  assigningId : Option String
deriving Repr, DecidableEq

/-- `startEditing` (`src/types/portal.ts:577-584`,
`src/components/RegionList.tsx:317-323`): opens the edit panel for the
given row and closes any assignment panel
(`setAssigningRegionId(null)`). -/
def startEditingPanel (rowId : String) (_s : PanelState) : PanelState :=
  { editingId := some rowId, assigningId := none }

/-- `cancelEditing` (`src/types/portal.ts:586-591`,
`src/components/RegionList.tsx:325-330`): closes the edit panel. -/
def cancelEditingPanel (s : PanelState) : PanelState :=
  { s with editingId := none }

/-- `toggleAssigning` (`src/types/portal.ts:641-644`,
`src/components/RegionList.tsx:376-379`): toggles the assignment panel
for the given row and closes any edit panel
(`setEditingRegionId(null)`). -/
def toggleAssigningPanel (rowId : String) (s : PanelState) : PanelState :=
  { editingId := none,
    assigningId := if s.assigningId == some rowId then none else some rowId }

/-- A successful save closes the edit panel via `cancelEditing()`
(`src/types/portal.ts:616`, `src/components/RegionList.tsx:351`). -/
def saveSuccessPanel (s : PanelState) : PanelState :=
  cancelEditingPanel s

/-- A failed save only sets the row error; the panel state is untouched
(`src/types/portal.ts:618-619`). -/
def saveFailurePanel (s : PanelState) : PanelState :=
  s

/-- At most one of the edit panel and the assignment panel is open. The
"at most one row per list" half of the claim is structural: each open
panel is a single `Option String` row id. -/
def panelExclusive (s : PanelState) : Prop :=
  s.editingId = none ∨ s.assigningId = none

/-- Observation function on the derived view: the group rendered for a
given `group_id`, if any (`key={group.groupId}` rows,
`src/types/portal.ts:321-328`). -/
def findGroup (gs : List IncidentGroup) (k : String) : Option IncidentGroup :=
  gs.find? (fun g => g.groupId == k)

instance (dateMs : String → Int) : IsTotal IncidentSummary (memberBefore dateMs) :=
  ⟨fun a b => le_total (dateMs b.date_of_incident) (dateMs a.date_of_incident)⟩

instance (dateMs : String → Int) : IsTrans IncidentSummary (memberBefore dateMs) :=
  ⟨fun _ _ _ hab hbc => le_trans hbc hab⟩

instance (dateMs : String → Int) : IsTotal IncidentGroup (groupBefore dateMs) :=
  ⟨fun a b => le_total (headDateMs dateMs b) (headDateMs dateMs a)⟩

instance (dateMs : String → Int) : IsTrans IncidentGroup (groupBefore dateMs) :=
  ⟨fun _ _ _ hab hbc => le_trans hbc hab⟩

instance (dateMs : String → Int) : IsTotal IncidentGroup (specGroupBefore dateMs) :=
  ⟨fun a b => le_total (mostRecentMs dateMs b) (mostRecentMs dateMs a)⟩

instance (dateMs : String → Int) : IsTrans IncidentGroup (specGroupBefore dateMs) :=
  ⟨fun _ _ _ hab hbc => le_trans hbc hab⟩

/-! ## Theorems

General lemmas about the stable sort, first-occurrence keys and the
grouping construction, followed by the claim theorems. -/

theorem orderedInsert_congr {α : Type} (r s : α → α → Prop)
    [DecidableRel r] [DecidableRel s] (x : α) (l : List α)
    (h : ∀ b ∈ l, r x b ↔ s x b) :
    l.orderedInsert r x = l.orderedInsert s x := by
  induction l with
  | nil => rfl
  | cons y ys ih =>
    simp only [List.orderedInsert]
    by_cases hxy : r x y
    · rw [if_pos hxy, if_pos ((h y (by simp)).mp hxy)]
    · rw [if_neg hxy, if_neg (fun hs => hxy ((h y (by simp)).mpr hs))]
      rw [ih (fun b hb => h b (by simp [hb]))]

theorem insertionSort_congr {α : Type} (r s : α → α → Prop)
    [DecidableRel r] [DecidableRel s] (l : List α)
    (h : ∀ a ∈ l, ∀ b ∈ l, r a b ↔ s a b) :
    l.insertionSort r = l.insertionSort s := by
  induction l with
  | nil => rfl
  | cons x xs ih =>
    simp only [List.insertionSort]
    rw [ih (fun a ha b hb => h a (by simp [ha]) b (by simp [hb]))]
    exact orderedInsert_congr r s x _ (fun b hb =>
      h x (by simp) b (by simp [(List.mem_insertionSort s).mp hb]))

theorem orderedInsert_eq_cons_of_forall {α : Type} (r : α → α → Prop)
    [DecidableRel r] (x : α) (l : List α) (h : ∀ z ∈ l, r x z) :
    l.orderedInsert r x = x :: l := by
  cases l with
  | nil => rfl
  | cons z zs => exact List.orderedInsert_of_le r zs (h z (by simp))

theorem filter_orderedInsert_neg {α : Type} (r : α → α → Prop)
    [DecidableRel r] (p : α → Bool) (x : α) (l : List α) (hx : p x = false) :
    (l.orderedInsert r x).filter p = l.filter p := by
  induction l with
  | nil => simp [List.orderedInsert, hx]
  | cons y ys ih =>
    simp only [List.orderedInsert]
    by_cases hr : r x y
    · rw [if_pos hr]
      simp [List.filter, hx]
    · rw [if_neg hr]
      cases hp : p y <;> simp [List.filter, hp, ih]

theorem orderedInsert_filter {α : Type} (r : α → α → Prop)
    [DecidableRel r] [IsTrans α r] (p : α → Bool) (x : α) (l : List α)
    (hs : l.Sorted r) (hx : p x = true) :
    (l.orderedInsert r x).filter p = (l.filter p).orderedInsert r x := by
  induction l with
  | nil => simp [List.orderedInsert, hx]
  | cons y ys ih =>
    simp only [List.orderedInsert]
    by_cases hr : r x y
    · rw [if_pos hr]
      cases hp : p y
      · have hforall : ∀ z ∈ ys.filter p, r x z := by
          intro z hz
          have hzys : z ∈ ys := List.mem_of_mem_filter hz
          exact Trans.trans hr (List.rel_of_sorted_cons hs z hzys)
        rw [show ((y :: ys).filter p) = ys.filter p by simp [List.filter, hp]]
        rw [orderedInsert_eq_cons_of_forall r x (ys.filter p) hforall]
        simp [List.filter, hx, hp]
      · rw [show ((y :: ys).filter p) = y :: ys.filter p by simp [List.filter, hp]]
        rw [List.orderedInsert, if_pos hr]
        simp [List.filter, hx, hp]
    · rw [if_neg hr]
      cases hp : p y
      · rw [show ((y :: ys).filter p) = ys.filter p by simp [List.filter, hp]]
        rw [show ((y :: ys.orderedInsert r x).filter p) = (ys.orderedInsert r x).filter p by
          simp [List.filter, hp]]
        exact ih hs.of_cons
      · rw [show ((y :: ys).filter p) = y :: ys.filter p by simp [List.filter, hp]]
        rw [List.orderedInsert, if_neg hr]
        rw [show ((y :: ys.orderedInsert r x).filter p) = y :: (ys.orderedInsert r x).filter p by
          simp [List.filter, hp]]
        rw [ih hs.of_cons]

theorem insertionSort_filter {α : Type} (r : α → α → Prop)
    [DecidableRel r] [IsTotal α r] [IsTrans α r] (p : α → Bool) (l : List α) :
    (l.filter p).insertionSort r = (l.insertionSort r).filter p := by
  induction l with
  | nil => rfl
  | cons x xs ih =>
    simp only [List.insertionSort]
    cases hx : p x
    · rw [show ((x :: xs).filter p) = xs.filter p by simp [List.filter, hx]]
      rw [ih, filter_orderedInsert_neg r p x _ hx]
    · rw [show ((x :: xs).filter p) = x :: xs.filter p by simp [List.filter, hx]]
      rw [List.insertionSort, ih,
        orderedInsert_filter r p x _ (List.sorted_insertionSort r xs) hx]

theorem mem_firstOccKeys (k : String) (ks : List String) :
    k ∈ firstOccKeys ks ↔ k ∈ ks := by
  induction ks with
  | nil => simp [firstOccKeys]
  | cons k0 ks ih =>
    simp only [firstOccKeys, List.mem_cons]
    constructor
    · rintro (h | h)
      · exact Or.inl h
      · exact Or.inr (ih.mp (List.mem_of_mem_filter h))
    · rintro (h | h)
      · exact Or.inl h
      · by_cases hk : k = k0
        · exact Or.inl hk
        · exact Or.inr (List.mem_filter.mpr ⟨ih.mpr h, by simp [bne_iff_ne, hk]⟩)

theorem nodup_firstOccKeys (ks : List String) : (firstOccKeys ks).Nodup := by
  induction ks with
  | nil => simp [firstOccKeys]
  | cons k0 ks ih =>
    simp only [firstOccKeys]
    refine List.nodup_cons.mpr ⟨?_, ih.filter _⟩
    intro hmem
    have h2 := (List.mem_filter.mp hmem).2
    simp [bne_iff_ne] at h2

theorem firstOccKeys_concat (ks : List String) (k : String) :
    firstOccKeys (ks ++ [k]) =
      if k ∈ ks then firstOccKeys ks else firstOccKeys ks ++ [k] := by
  induction ks with
  | nil => simp [firstOccKeys]
  | cons k0 ks ih =>
    simp only [List.cons_append, firstOccKeys, List.append_eq, ih]
    by_cases hk : k ∈ ks
    · rw [if_pos hk, if_pos (by simp [hk])]
    · rw [if_neg hk]
      by_cases hk0 : k = k0
      · subst hk0
        rw [if_pos (by simp)]
        simp [List.filter_append]
      · rw [if_neg (by simp [hk0, hk])]
        simp [List.filter_append, bne_iff_ne, hk0]

theorem firstOccKeys_const_append (xs ys : List String) (k : String)
    (hxs : ∀ x ∈ xs, x = k) (hne : xs ≠ []) :
    firstOccKeys (xs ++ ys) = k :: (firstOccKeys ys).filter (fun x => x != k) := by
  induction xs with
  | nil => exact absurd rfl hne
  | cons x xs ih =>
    have hx : x = k := hxs x (by simp)
    subst hx
    simp only [List.cons_append, firstOccKeys, List.append_eq]
    cases xs with
    | nil => simp
    | cons x1 xs1 =>
      rw [ih (fun y hy => hxs y (by simp [hy])) (by simp)]
      simp [List.filter_filter]

theorem insertGrouped_map_not_mem (g : String) (i : IncidentSummary)
    (ks : List String) (f : String → List IncidentSummary) (hg : g ∉ ks) :
    insertGrouped g i (ks.map fun k => (k, f k)) =
      (ks.map fun k => (k, f k)) ++ [(g, [i])] := by
  induction ks with
  | nil => rfl
  | cons k0 ks ih =>
    simp only [List.map_cons, insertGrouped]
    have hne : ¬ (k0 == g) = true := by
      simp only [beq_iff_eq]
      rintro rfl
      exact hg (List.mem_cons_self _ _)
    rw [if_neg hne, ih (fun h => hg (List.mem_cons_of_mem _ h))]
    rfl

theorem insertGrouped_map_mem (g : String) (i : IncidentSummary)
    (ks : List String) (f : String → List IncidentSummary)
    (hnd : ks.Nodup) (hg : g ∈ ks) :
    insertGrouped g i (ks.map fun k => (k, f k)) =
      ks.map fun k => (k, if k = g then f k ++ [i] else f k) := by
  induction ks with
  | nil => simp at hg
  | cons k0 ks ih =>
    simp only [List.map_cons, insertGrouped]
    by_cases h0 : k0 = g
    · subst h0
      rw [if_pos (by simp)]
      congr 1
      · simp
      · refine (List.map_congr_left ?_).symm
        intro k hk
        have hne : k ≠ k0 := by
          rintro rfl
          exact (List.nodup_cons.mp hnd).1 hk
        simp [hne]
    · rw [if_neg (by simp [h0])]
      have hg2 : g ∈ ks := by
        rcases List.mem_cons.mp hg with h | h
        · exact absurd h.symm h0
        · exact h
      rw [ih (List.nodup_cons.mp hnd).2 hg2]
      congr 1
      simp [h0]

theorem groupByKeys_concat (l : List IncidentSummary) (i : IncidentSummary) :
    groupByKeys (l ++ [i]) = insertGrouped i.group_id i (groupByKeys l) := by
  unfold groupByKeys
  rw [List.map_append, List.map_singleton, firstOccKeys_concat]
  by_cases hg : i.group_id ∈ l.map (·.group_id)
  · rw [if_pos (by simpa using hg)]
    rw [insertGrouped_map_mem _ i _ _ (nodup_firstOccKeys _)
      ((mem_firstOccKeys _ _).mpr (by simpa using hg))]
    refine List.map_congr_left ?_
    intro k hk
    rw [List.filter_append]
    by_cases hk2 : k = i.group_id
    · subst hk2
      simp
    · have hne2 : (i.group_id == k) = false := by
        simp only [beq_eq_false_iff_ne, ne_eq]
        exact fun h => hk2 h.symm
      simp only [List.filter_cons, List.filter_nil, hne2, if_pos, hk2]
      simp [hk2]
  · rw [if_neg (by simpa using hg)]
    rw [List.map_append,
      insertGrouped_map_not_mem _ i _ _ (fun h => hg (by simpa using (mem_firstOccKeys _ _).mp h))]
    congr 1
    · refine List.map_congr_left ?_
      intro k hk
      have hne : (i.group_id == k) = false := by
        simp only [beq_eq_false_iff_ne, ne_eq]
        rintro rfl
        exact hg (by simpa using (mem_firstOccKeys _ _).mp hk)
      rw [List.filter_append]
      simp [hne]
    · have hnil : l.filter (fun x => x.group_id == i.group_id) = [] := by
        refine List.filter_eq_nil_iff.mpr ?_
        intro a ha
        simp only [beq_eq_false_iff_ne, ne_eq, Bool.not_eq_true, beq_iff_eq]
        intro h
        exact hg (by simpa using ⟨a, ha, h⟩)
      simp [List.filter_append, hnil]

theorem groupByGroupId_eq_groupByKeys (l : List IncidentSummary) :
    groupByGroupId l = groupByKeys l := by
  induction l using List.reverseRecOn with
  | nil => rfl
  | append_singleton l i ih =>
    unfold groupByGroupId
    rw [List.foldl_append]
    simp only [List.foldl_cons, List.foldl_nil]
    unfold groupByGroupId at ih
    rw [ih, groupByKeys_concat]

theorem incidentPasses_eq_specPasses (f : Filters) (i : IncidentSummary) :
    incidentPasses f i = specPasses f i := by
  unfold incidentPasses specPasses
  cases f.filterStatus <;>
    by_cases h1 : f.searchName = "" <;>
    by_cases h2 : f.filterDate = "" <;>
    by_cases h3 : f.filterRegion = "" <;>
    cases hm : jsIncludes i.person_involved_name.toLower f.searchName.toLower <;>
    cases hde : (i.date_of_incident == f.filterDate) <;>
    cases hre : (i.region_id == f.filterRegion) <;>
    cases hst : (i.state == "done") <;>
    simp_all [bne]

theorem filteredAndGrouped_norm (dateMs : String → Int) (f : Filters)
    (incidents : List IncidentSummary) :
    filteredAndGroupedIncidents dateMs f incidents =
      ((groupByKeys (incidents.filter (incidentPasses f))).map fun kv =>
        IncidentGroup.mk kv.1 (kv.2.insertionSort (memberBefore dateMs))).insertionSort
        (groupBefore dateMs) := by
  unfold filteredAndGroupedIncidents
  simp only [groupByGroupId_eq_groupByKeys]

theorem foldl_max_eq {x : Int} {xs : List Int} (h : ∀ y ∈ xs, y ≤ x) :
    xs.foldl max x = x := by
  induction xs generalizing x with
  | nil => rfl
  | cons y ys ih =>
    simp only [List.foldl_cons]
    rw [max_eq_left (h y (by simp))]
    exact ih (fun z hz => h z (by simp [hz]))

theorem headDateMs_eq_mostRecentMs (dateMs : String → Int) (k : String)
    (l : List IncidentSummary) (hne : l ≠ [])
    (hs : l.Sorted (memberBefore dateMs)) :
    headDateMs dateMs ⟨k, l⟩ = mostRecentMs dateMs ⟨k, l⟩ := by
  cases l with
  | nil => exact absurd rfl hne
  | cons i rest =>
    unfold headDateMs mostRecentMs
    simp only [List.map_cons]
    rw [show (dateMs i.date_of_incident :: rest.map fun j => dateMs j.date_of_incident).max?
        = some ((rest.map fun j => dateMs j.date_of_incident).foldl max
            (dateMs i.date_of_incident)) from rfl]
    rw [foldl_max_eq]
    · rfl
    · intro y hy
      obtain ⟨j, hj, rfl⟩ := List.mem_map.mp hy
      exact List.rel_of_sorted_cons hs j hj

theorem mem_groupByKeys {kv : String × List IncidentSummary}
    {l : List IncidentSummary} (h : kv ∈ groupByKeys l) :
    kv.1 ∈ firstOccKeys (l.map (·.group_id)) ∧
      kv.2 = l.filter (fun i => i.group_id == kv.1) := by
  unfold groupByKeys at h
  obtain ⟨k, hk, rfl⟩ := List.mem_map.mp h
  exact ⟨hk, rfl⟩

theorem groupByKeys_members_ne_nil {kv : String × List IncidentSummary}
    {l : List IncidentSummary} (h : kv ∈ groupByKeys l) : kv.2 ≠ [] := by
  obtain ⟨hk, hv⟩ := mem_groupByKeys h
  have hk2 : kv.1 ∈ l.map (·.group_id) := (mem_firstOccKeys _ _).mp hk
  obtain ⟨i, hi, hgi⟩ := List.mem_map.mp hk2
  have : i ∈ l.filter (fun j => j.group_id == kv.1) :=
    List.mem_filter.mpr ⟨hi, by simp [hgi]⟩
  rw [hv]
  exact List.ne_nil_of_mem this

theorem sortedGroups_head_eq_mostRecent (dateMs : String → Int)
    (l : List IncidentSummary) (g : IncidentGroup)
    (hg : g ∈ (groupByKeys l).map fun kv =>
      IncidentGroup.mk kv.1 (kv.2.insertionSort (memberBefore dateMs))) :
    headDateMs dateMs g = mostRecentMs dateMs g := by
  obtain ⟨kv, hkv, rfl⟩ := List.mem_map.mp hg
  refine headDateMs_eq_mostRecentMs dateMs kv.1 _ ?_ ?_
  · intro hnil
    have hlen := congrArg List.length hnil
    rw [List.length_insertionSort] at hlen
    exact groupByKeys_members_ne_nil hkv (List.length_eq_zero.mp hlen)
  · exact List.sorted_insertionSort _ _

/-- C1. For every flat incident collection and every combination of the
four filters, the derived incident view computed by
`filteredAndGroupedIncidents` equals the spec-described pipeline: keep
exactly the incidents satisfying every active predicate (case-insensitive
substring on the person name, exact date and region equality, any state
other than `"done"` counting as unfinished), partition them into groups
keyed by `group_id`, sort each group's members by `date_of_incident`
descending, and sort the groups by their most-recent member's
`date_of_incident` descending. -/
theorem filteredAndGrouped_eq_specView (dateMs : String → Int) (f : Filters)
    (incidents : List IncidentSummary) :
    filteredAndGroupedIncidents dateMs f incidents =
      specGroupedView dateMs f incidents := by
  rw [filteredAndGrouped_norm]
  unfold specGroupedView
  rw [List.filter_congr (fun i _ => incidentPasses_eq_specPasses f i)]
  apply insertionSort_congr
  intro a ha b hb
  unfold groupBefore specGroupBefore
  rw [sortedGroups_head_eq_mostRecent dateMs _ a ha,
    sortedGroups_head_eq_mostRecent dateMs _ b hb]

theorem groupByKeys_map_fst (l : List IncidentSummary) :
    (groupByKeys l).map Prod.fst = firstOccKeys (l.map (·.group_id)) := by
  unfold groupByKeys
  generalize firstOccKeys (l.map (·.group_id)) = ks
  induction ks with
  | nil => rfl
  | cons k ks ih => simp [ih]

theorem pipelineGroups_map_groupId (dateMs : String → Int) (f : Filters)
    (l : List IncidentSummary) :
    (((groupByKeys (l.filter (incidentPasses f))).map fun kv =>
        IncidentGroup.mk kv.1 (kv.2.insertionSort (memberBefore dateMs))).map
      (·.groupId)) = firstOccKeys ((l.filter (incidentPasses f)).map (·.group_id)) := by
  rw [List.map_map, ← groupByKeys_map_fst]
  rfl

theorem pipeline_keys_nodup (dateMs : String → Int) (f : Filters)
    (l : List IncidentSummary) :
    ((filteredAndGroupedIncidents dateMs f l).map (·.groupId)).Nodup := by
  rw [filteredAndGrouped_norm]
  refine ((List.perm_insertionSort (groupBefore dateMs) _).map (·.groupId)).nodup_iff.mpr ?_
  rw [pipelineGroups_map_groupId]
  exact nodup_firstOccKeys _

theorem pipeline_mem_iff (dateMs : String → Int) (f : Filters)
    (l : List IncidentSummary) (g : IncidentGroup) :
    g ∈ filteredAndGroupedIncidents dateMs f l ↔
      g ∈ (groupByKeys (l.filter (incidentPasses f))).map fun kv =>
        IncidentGroup.mk kv.1 (kv.2.insertionSort (memberBefore dateMs)) := by
  rw [filteredAndGrouped_norm]
  exact List.mem_insertionSort _

theorem pipeline_members_ne_nil (dateMs : String → Int) (f : Filters)
    (l : List IncidentSummary) (g : IncidentGroup)
    (hg : g ∈ filteredAndGroupedIncidents dateMs f l) : g.incidents ≠ [] := by
  obtain ⟨kv, hkv, rfl⟩ := List.mem_map.mp ((pipeline_mem_iff dateMs f l g).mp hg)
  intro hnil
  have hlen := congrArg List.length hnil
  rw [List.length_insertionSort] at hlen
  exact groupByKeys_members_ne_nil hkv (List.length_eq_zero.mp hlen)

theorem pipeline_members_group_id (dateMs : String → Int) (f : Filters)
    (l : List IncidentSummary) (g : IncidentGroup)
    (hg : g ∈ filteredAndGroupedIncidents dateMs f l) :
    ∀ i ∈ g.incidents, i.group_id = g.groupId := by
  obtain ⟨kv, hkv, rfl⟩ := List.mem_map.mp ((pipeline_mem_iff dateMs f l g).mp hg)
  intro i hi
  have hi2 : i ∈ kv.2 := (List.mem_insertionSort _).mp hi
  rw [(mem_groupByKeys hkv).2] at hi2
  simpa using (List.mem_filter.mp hi2).2

theorem pipeline_members_sorted (dateMs : String → Int) (f : Filters)
    (l : List IncidentSummary) (g : IncidentGroup)
    (hg : g ∈ filteredAndGroupedIncidents dateMs f l) :
    g.incidents.Sorted (memberBefore dateMs) := by
  obtain ⟨kv, hkv, rfl⟩ := List.mem_map.mp ((pipeline_mem_iff dateMs f l g).mp hg)
  exact List.sorted_insertionSort _ _

theorem pipeline_members_subset_filtered (dateMs : String → Int) (f : Filters)
    (l : List IncidentSummary) (g : IncidentGroup)
    (hg : g ∈ filteredAndGroupedIncidents dateMs f l) :
    ∀ i ∈ g.incidents, i ∈ l.filter (incidentPasses f) := by
  obtain ⟨kv, hkv, rfl⟩ := List.mem_map.mp ((pipeline_mem_iff dateMs f l g).mp hg)
  intro i hi
  have hi2 : i ∈ kv.2 := (List.mem_insertionSort _).mp hi
  rw [(mem_groupByKeys hkv).2] at hi2
  exact List.mem_of_mem_filter hi2

theorem pipeline_sorted (dateMs : String → Int) (f : Filters)
    (l : List IncidentSummary) :
    (filteredAndGroupedIncidents dateMs f l).Sorted (groupBefore dateMs) := by
  rw [filteredAndGrouped_norm]
  exact List.sorted_insertionSort _ _

theorem groupByKeys_flatten (gs : List IncidentGroup)
    (hkeys : (gs.map (·.groupId)).Nodup)
    (hne : ∀ g ∈ gs, g.incidents ≠ [])
    (hmatch : ∀ g ∈ gs, ∀ i ∈ g.incidents, i.group_id = g.groupId) :
    groupByKeys ((gs.map (·.incidents)).flatten) =
      gs.map fun g => (g.groupId, g.incidents) := by
  induction gs with
  | nil => rfl
  | cons g rest ih =>
    have hgmatch : ∀ i ∈ g.incidents, i.group_id = g.groupId :=
      hmatch g (by simp)
    have hallkeys : ∀ x ∈ (g.incidents.map (·.group_id)), x = g.groupId := by
      intro x hx
      obtain ⟨i, hi, rfl⟩ := List.mem_map.mp hx
      exact hgmatch i hi
    have hmapne : g.incidents.map (·.group_id) ≠ [] := by
      intro h
      exact hne g (by simp) (List.map_eq_nil_iff.mp h)
    have hrestkey : ∀ x ∈ ((rest.map (·.incidents)).flatten.map (·.group_id)),
        x ∈ rest.map (·.groupId) := by
      intro x hx
      obtain ⟨i, hi, rfl⟩ := List.mem_map.mp hx
      obtain ⟨s, hs, his⟩ := List.mem_flatten.mp hi
      obtain ⟨g2, hg2, rfl⟩ := List.mem_map.mp hs
      rw [hmatch g2 (by simp [hg2]) i his]
      exact List.mem_map.mpr ⟨g2, hg2, rfl⟩
    have hheadnot : g.groupId ∉ rest.map (·.groupId) :=
      (List.nodup_cons.mp (by simpa using hkeys)).1
    unfold groupByKeys
    rw [List.map_cons, List.flatten_cons, List.map_append,
      firstOccKeys_const_append _ _ g.groupId hallkeys hmapne]
    have hfilterid :
        (firstOccKeys ((rest.map (·.incidents)).flatten.map (·.group_id))).filter
          (fun x => x != g.groupId)
        = firstOccKeys ((rest.map (·.incidents)).flatten.map (·.group_id)) := by
      refine List.filter_eq_self.mpr ?_
      intro x hx
      have hx2 := hrestkey x ((mem_firstOccKeys _ _).mp hx)
      simp only [bne_iff_ne, ne_eq]
      rintro rfl
      exact hheadnot hx2
    rw [hfilterid, List.map_cons]
    congr 1
    · congr 1
      rw [List.filter_append]
      have h1 : g.incidents.filter (fun i => i.group_id == g.groupId) = g.incidents :=
        List.filter_eq_self.mpr (fun i hi => by simp [hgmatch i hi])
      have h2 : (rest.map (·.incidents)).flatten.filter
          (fun i => i.group_id == g.groupId) = [] := by
        refine List.filter_eq_nil_iff.mpr ?_
        intro i hi
        simp only [beq_eq_false_iff_ne, ne_eq, Bool.not_eq_true, beq_iff_eq]
        intro hcontra
        have hmem : i.group_id ∈ rest.map (·.groupId) :=
          hrestkey i.group_id (List.mem_map.mpr ⟨i, hi, rfl⟩)
        rw [hcontra] at hmem
        exact hheadnot hmem
      rw [h1, h2, List.append_nil]
    · have ihres := ih (by simpa using (List.nodup_cons.mp (by simpa using hkeys)).2)
        (fun g2 hg2 => hne g2 (by simp [hg2]))
        (fun g2 hg2 => hmatch g2 (by simp [hg2]))
      unfold groupByKeys at ihres
      rw [← ihres]
      refine List.map_congr_left ?_
      intro k hk
      congr 1
      rw [List.filter_append]
      have h3 : g.incidents.filter (fun i => i.group_id == k) = [] := by
        refine List.filter_eq_nil_iff.mpr ?_
        intro i hi
        simp only [beq_eq_false_iff_ne, ne_eq, Bool.not_eq_true, beq_iff_eq]
        intro hcontra
        have : k = g.groupId := hcontra ▸ hgmatch i hi
        rw [this] at hk
        exact hheadnot (hrestkey g.groupId ((mem_firstOccKeys _ _).mp hk))
      rw [h3, List.nil_append]

/-- C2. The filter/group/sort pipeline is idempotent: flattening its
output back into a flat incident sequence and running the pipeline again
with the same filters yields the same sequence of groups with the same
member order. -/
theorem filteredAndGrouped_idempotent (dateMs : String → Int) (f : Filters)
    (incidents : List IncidentSummary) :
    filteredAndGroupedIncidents dateMs f
        (((filteredAndGroupedIncidents dateMs f incidents).map (·.incidents)).flatten)
      = filteredAndGroupedIncidents dateMs f incidents := by
  have hfilter :
      (((filteredAndGroupedIncidents dateMs f incidents).map
        (·.incidents)).flatten).filter (incidentPasses f)
      = ((filteredAndGroupedIncidents dateMs f incidents).map (·.incidents)).flatten := by
    refine List.filter_eq_self.mpr ?_
    intro i hi
    obtain ⟨s, hs, his⟩ := List.mem_flatten.mp hi
    obtain ⟨g, hg, rfl⟩ := List.mem_map.mp hs
    exact List.of_mem_filter
      (pipeline_members_subset_filtered dateMs f incidents g hg i his)
  rw [filteredAndGrouped_norm dateMs f
    (((filteredAndGroupedIncidents dateMs f incidents).map (·.incidents)).flatten)]
  rw [hfilter]
  rw [groupByKeys_flatten (filteredAndGroupedIncidents dateMs f incidents)
    (pipeline_keys_nodup dateMs f incidents)
    (pipeline_members_ne_nil dateMs f incidents)
    (pipeline_members_group_id dateMs f incidents)]
  rw [List.map_map]
  have hmapid :
      (filteredAndGroupedIncidents dateMs f incidents).map
        ((fun kv : String × List IncidentSummary =>
          IncidentGroup.mk kv.1 (kv.2.insertionSort (memberBefore dateMs))) ∘
          (fun g => (g.groupId, g.incidents)))
      = filteredAndGroupedIncidents dateMs f incidents := by
    have h : ∀ g ∈ filteredAndGroupedIncidents dateMs f incidents,
        ((fun kv : String × List IncidentSummary =>
          IncidentGroup.mk kv.1 (kv.2.insertionSort (memberBefore dateMs))) ∘
          (fun g => (g.groupId, g.incidents))) g = id g := by
      intro g hg
      have hsorted := pipeline_members_sorted dateMs f incidents g hg
      show IncidentGroup.mk g.groupId (g.incidents.insertionSort (memberBefore dateMs)) = g
      rw [List.Sorted.insertionSort_eq hsorted]
    rw [List.map_congr_left h, List.map_id]
  rw [hmapid]
  exact List.Sorted.insertionSort_eq (pipeline_sorted dateMs f incidents)

theorem findGroup_eq_some_of_mem (gs : List IncidentGroup) (g : IncidentGroup)
    (hnd : (gs.map (·.groupId)).Nodup) (hg : g ∈ gs) :
    findGroup gs g.groupId = some g := by
  unfold findGroup
  induction gs with
  | nil => simp at hg
  | cons h t ih =>
    rcases List.mem_cons.mp hg with rfl | hgt
    · exact List.find?_cons_of_pos _ (by simp)
    · have hneq : ¬ (h.groupId == g.groupId) = true := by
        simp only [beq_iff_eq]
        intro he
        have hmem : g.groupId ∈ t.map (·.groupId) := List.mem_map.mpr ⟨g, hgt, rfl⟩
        rw [← he] at hmem
        exact (List.nodup_cons.mp (by simpa using hnd)).1 hmem
      rw [show List.find? (fun g1 => g1.groupId == g.groupId) (h :: t)
          = List.find? (fun g1 => g1.groupId == g.groupId) t from
        List.find?_cons_of_neg t hneq]
      exact ih (List.nodup_cons.mp (by simpa using hnd)).2 hgt

theorem pipeline_groupId_mem (dateMs : String → Int) (f : Filters)
    (l : List IncidentSummary) (k : String) :
    k ∈ (filteredAndGroupedIncidents dateMs f l).map (·.groupId) ↔
      ∃ i ∈ l, incidentPasses f i = true ∧ i.group_id = k := by
  rw [filteredAndGrouped_norm]
  rw [((List.perm_insertionSort (groupBefore dateMs) _).map (·.groupId)).mem_iff]
  rw [pipelineGroups_map_groupId, mem_firstOccKeys]
  constructor
  · intro h
    obtain ⟨i, hi, rfl⟩ := List.mem_map.mp h
    exact ⟨i, List.mem_of_mem_filter hi, List.of_mem_filter hi, rfl⟩
  · rintro ⟨i, hi, hp, rfl⟩
    exact List.mem_map.mpr ⟨i, List.mem_filter.mpr ⟨hi, hp⟩, rfl⟩

theorem pipeline_findGroup (dateMs : String → Int) (f : Filters)
    (l : List IncidentSummary) (k : String)
    (hk : ∃ i ∈ l, incidentPasses f i = true ∧ i.group_id = k) :
    findGroup (filteredAndGroupedIncidents dateMs f l) k =
      some ⟨k, ((l.filter (incidentPasses f)).filter
        (fun i => i.group_id == k)).insertionSort (memberBefore dateMs)⟩ := by
  have hmem : (⟨k, ((l.filter (incidentPasses f)).filter
      (fun i => i.group_id == k)).insertionSort (memberBefore dateMs)⟩ : IncidentGroup)
      ∈ filteredAndGroupedIncidents dateMs f l := by
    rw [pipeline_mem_iff]
    refine List.mem_map.mpr
      ⟨(k, (l.filter (incidentPasses f)).filter (fun i => i.group_id == k)), ?_, rfl⟩
    unfold groupByKeys
    refine List.mem_map.mpr ⟨k, ?_, rfl⟩
    rw [mem_firstOccKeys]
    obtain ⟨i, hi, hp, hgid⟩ := hk
    exact List.mem_map.mpr ⟨i, List.mem_filter.mpr ⟨hi, hp⟩, hgid⟩
  exact findGroup_eq_some_of_mem _ _ (pipeline_keys_nodup dateMs f l) hmem

theorem pipeline_found_group_shape (dateMs : String → Int) (f : Filters)
    (l : List IncidentSummary) (k : String) (g : IncidentGroup)
    (hfind : findGroup (filteredAndGroupedIncidents dateMs f l) k = some g) :
    g.groupId = k ∧
      g.incidents = ((l.filter (incidentPasses f)).filter
        (fun i => i.group_id == k)).insertionSort (memberBefore dateMs) := by
  unfold findGroup at hfind
  have hmem : g ∈ filteredAndGroupedIncidents dateMs f l :=
    List.mem_of_find?_eq_some hfind
  have hpk := List.find?_some hfind
  have hk : g.groupId = k := by simpa using hpk
  obtain ⟨kv, hkv, hshape⟩ := List.mem_map.mp ((pipeline_mem_iff dateMs f l g).mp hmem)
  obtain ⟨hkey, hval⟩ := mem_groupByKeys hkv
  refine ⟨hk, ?_⟩
  have h1 : g.incidents = kv.2.insertionSort (memberBefore dateMs) := by
    rw [← hshape]
  have h2 : kv.1 = g.groupId := by rw [← hshape]
  rw [h1, hval, h2, hk]

/-- C7. A successful incident delete removes exactly the incidents with
the deleted id from the local collection; in the derived grouped view, a
group all of whose (filter-passing) members had the deleted id no longer
appears, while deleting a non-last member leaves the group present with
exactly its other members (in their sorted order). -/
theorem handleDelete_removes_exactly (dateMs : String → Int) (f : Filters)
    (l : List IncidentSummary) (delId : String) :
    (∀ i, i ∈ handleDeleteIncidentApply l delId ↔ i ∈ l ∧ i.id ≠ delId)
    ∧ (∀ k, (∀ i ∈ l, incidentPasses f i = true → i.group_id = k → i.id = delId) →
        findGroup (filteredAndGroupedIncidents dateMs f (handleDeleteIncidentApply l delId)) k
          = none)
    ∧ (∀ k gOld,
        findGroup (filteredAndGroupedIncidents dateMs f l) k = some gOld →
        (∃ i ∈ l, incidentPasses f i = true ∧ i.group_id = k ∧ i.id ≠ delId) →
        findGroup (filteredAndGroupedIncidents dateMs f (handleDeleteIncidentApply l delId)) k
          = some ⟨k, gOld.incidents.filter (fun i => i.id != delId)⟩) := by
  refine ⟨?_, ?_, ?_⟩
  · intro i
    unfold handleDeleteIncidentApply
    rw [List.mem_filter]
    simp [bne_iff_ne]
  · intro k hall
    unfold findGroup
    refine List.find?_eq_none.mpr ?_
    intro g hg
    simp only [beq_iff_eq]
    intro hgk
    have hkmem : k ∈ (filteredAndGroupedIncidents dateMs f
        (handleDeleteIncidentApply l delId)).map (·.groupId) :=
      hgk ▸ List.mem_map.mpr ⟨g, hg, rfl⟩
    obtain ⟨i, hi, hp, hgid⟩ := (pipeline_groupId_mem dateMs f _ k).mp hkmem
    have hil : i ∈ l := List.mem_of_mem_filter hi
    have hid := List.of_mem_filter hi
    have heq := hall i hil hp hgid
    simp [heq] at hid
  · intro k gOld hfold hex
    obtain ⟨hgid, hginc⟩ := pipeline_found_group_shape dateMs f l k gOld hfold
    obtain ⟨i, hi, hp, hgidk, hidne⟩ := hex
    have hex2 : ∃ j ∈ handleDeleteIncidentApply l delId,
        incidentPasses f j = true ∧ j.group_id = k :=
      ⟨i, List.mem_filter.mpr ⟨hi, by simp [bne_iff_ne, hidne]⟩, hp, hgidk⟩
    rw [pipeline_findGroup dateMs f _ k hex2]
    refine congrArg some ?_
    have hmembers :
        (((handleDeleteIncidentApply l delId).filter (incidentPasses f)).filter
          (fun i => i.group_id == k)).insertionSort (memberBefore dateMs)
        = gOld.incidents.filter (fun i => i.id != delId) := by
      rw [hginc, ← insertionSort_filter (memberBefore dateMs) (fun i => i.id != delId)
        ((l.filter (incidentPasses f)).filter (fun i => i.group_id == k))]
      unfold handleDeleteIncidentApply
      rw [List.filter_comm (incidentPasses f) (fun inc => inc.id != delId) l]
      rw [List.filter_comm (fun i => i.group_id == k) (fun inc => inc.id != delId)
        (l.filter (incidentPasses f))]
    rw [hmembers]

/-- Witness for C7 at a concrete collection: deleting the only member
of group `"h"` removes the group; deleting one of two members of group
`"g"` leaves the group with the other member. -/
theorem handleDelete_removes_exactly_witness :
    (⟨"2", "g", "Bob", "d22", "r", "e", "s", "open", "c"⟩ : IncidentSummary) ∈
        handleDeleteIncidentApply
          [⟨"1", "g", "Jane", "d1", "r", "e", "s", "done", "c"⟩,
           ⟨"2", "g", "Bob", "d22", "r", "e", "s", "open", "c"⟩,
           ⟨"3", "h", "Ann", "d3", "r", "e", "s", "done", "c"⟩] "1"
    ∧ findGroup (filteredAndGroupedIncidents (fun s => (s.length : Int))
        ⟨"", "", "", StatusFilter.all⟩
        (handleDeleteIncidentApply
          [⟨"1", "g", "Jane", "d1", "r", "e", "s", "done", "c"⟩,
           ⟨"2", "g", "Bob", "d22", "r", "e", "s", "open", "c"⟩,
           ⟨"3", "h", "Ann", "d3", "r", "e", "s", "done", "c"⟩] "3")) "h" = none
    ∧ findGroup (filteredAndGroupedIncidents (fun s => (s.length : Int))
        ⟨"", "", "", StatusFilter.all⟩
        (handleDeleteIncidentApply
          [⟨"1", "g", "Jane", "d1", "r", "e", "s", "done", "c"⟩,
           ⟨"2", "g", "Bob", "d22", "r", "e", "s", "open", "c"⟩,
           ⟨"3", "h", "Ann", "d3", "r", "e", "s", "done", "c"⟩] "1")) "g"
      = some ⟨"g", List.filter (fun i => i.id != "1")
          [⟨"2", "g", "Bob", "d22", "r", "e", "s", "open", "c"⟩,
           ⟨"1", "g", "Jane", "d1", "r", "e", "s", "done", "c"⟩]⟩ := by
  refine ⟨?_, ?_, ?_⟩
  · exact ((handleDelete_removes_exactly (fun s => (s.length : Int))
      ⟨"", "", "", StatusFilter.all⟩ _ "1").1 _).mpr ⟨by decide, by decide⟩
  · exact (handleDelete_removes_exactly _ _ _ _).2.1 "h" (by decide)
  · exact (handleDelete_removes_exactly _ _ _ _).2.2 "g"
      ⟨"g", [⟨"2", "g", "Bob", "d22", "r", "e", "s", "open", "c"⟩,
             ⟨"1", "g", "Jane", "d1", "r", "e", "s", "done", "c"⟩]⟩
      (by decide) ⟨⟨"2", "g", "Bob", "d22", "r", "e", "s", "open", "c"⟩,
        by decide, by decide, by decide, by decide⟩

/-- C3. On every non-2xx response, `request` throws an `Error` carrying
`errorMessage` (never a silent failure), and the message is: `detail`
itself when the body parses with a truthy string `detail`; the elements'
`msg` fields (falling back to the element itself) joined with `", "`
when `detail` is a list; and the generic
`Request failed with status <code>` when there is no parseable body or
no truthy `detail` field. In particular the 422 detail-list example
yields `"field required"`, the detail-string example yields
`"slug exists"`, and an unparseable body on a 500 yields
`"Request failed with status 500"`. -/
theorem request_nonOk_error (status : Nat) (body : Option Json)
    (hnok : ¬ (200 ≤ status ∧ status ≤ 299)) :
    request status body = RequestOutcome.failure (errorMessage status body)
    ∧ (body = none →
        errorMessage status body = "Request failed with status " ++ toString status)
    ∧ (∀ data, body = some data → jsonField data "detail" = none →
        errorMessage status body = "Request failed with status " ++ toString status)
    ∧ (∀ data detail, body = some data → jsonField data "detail" = some detail →
        jsTruthy detail = false →
        errorMessage status body = "Request failed with status " ++ toString status)
    ∧ (∀ data s, body = some data → jsonField data "detail" = some (Json.str s) →
        s ≠ "" → errorMessage status body = s)
    ∧ (∀ data elems, body = some data → jsonField data "detail" = some (Json.arr elems) →
        (∀ d ∈ elems, (detailElemMsg d).isSome = true) →
        errorMessage status body =
          String.intercalate ", " (elems.map (fun d => (detailElemMsg d).getD "")))
    ∧ request 422 (some (Json.obj
          [("detail", Json.arr [Json.obj [("msg", Json.str "field required")]])]))
        = RequestOutcome.failure "field required"
    ∧ request 409 (some (Json.obj [("detail", Json.str "slug exists")]))
        = RequestOutcome.failure "slug exists"
    ∧ request 500 none = RequestOutcome.failure "Request failed with status 500" := by
  have hcond : (!(200 ≤ status && status ≤ 299 : Bool)) = true := by
    simp only [Bool.not_eq_true']
    rw [Bool.and_eq_false_iff]
    rcases Nat.lt_or_ge status 200 with h | h
    · exact Or.inl (by simp [Nat.not_le.mpr h])
    · refine Or.inr ?_
      have h2 : ¬ status ≤ 299 := fun hle => hnok ⟨h, hle⟩
      simp [h2]
  refine ⟨?_, ?_, ?_, ?_, ?_, ?_, rfl, rfl, rfl⟩
  · unfold request
    rw [if_pos hcond]
  · rintro rfl
    rfl
  · rintro data rfl hdet
    simp [errorMessage, hdet]
  · rintro data detail rfl hdet htr
    simp [errorMessage, hdet, htr]
  · rintro data s rfl hdet hs
    simp [errorMessage, hdet, jsTruthy, hs, jsToString]
  · rintro data elems rfl hdet hall
    have hallb : elems.all (fun d => (detailElemMsg d).isSome) = true :=
      List.all_eq_true.mpr hall
    simp [errorMessage, hdet, jsTruthy, hallb]

/-- Witness for C3 at concrete non-2xx responses. -/
theorem request_nonOk_error_witness :
    ¬ (200 ≤ 500 ∧ 500 ≤ 299)
    ∧ request 500 none = RequestOutcome.failure (errorMessage 500 none)
    ∧ errorMessage 500 none = "Request failed with status 500"
    ∧ errorMessage 422 (some (Json.obj
        [("detail", Json.arr [Json.obj [("msg", Json.str "field required")]])]))
        = "field required" := by
  refine ⟨by decide, (request_nonOk_error 500 none (by decide)).1, ?_, rfl⟩
  exact (request_nonOk_error 500 none (by decide)).2.1 rfl

/-- C4. Toggling the (region, manager) assignment checkbox issues
exactly one call, unassign iff the manager's id currently appears in the
region's managers list; on success the RegionList replaces exactly the
rows whose id equals the toggled region's id with the server's returned
region, leaving every other row and its own managers lookup unchanged;
the ManagerList's view becomes current only through its own re-fetch,
which its toggle handler performs for both collections after every
toggle. -/
theorem toggleAssignment_frame (region : RegionRead) (manager : ManagerSummary)
    (s : RegionListState) (updated : RegionRead) (ms : ManagerListState)
    (fetchedManagers : List ManagerRead) (fetchedRegions : List RegionRead) :
    (manager.id ∈ region.managers.map (·.id) →
      toggleManagerAssignmentCall region manager
        = AssignCall.unassign region.id manager.id)
    ∧ (manager.id ∉ region.managers.map (·.id) →
      toggleManagerAssignmentCall region manager
        = AssignCall.assign region.id manager.id)
    ∧ (toggleManagerAssignmentApply s region updated).allManagers = s.allManagers
    ∧ (∀ n r, s.regions.get? n = some r → r.id ≠ region.id →
        (toggleManagerAssignmentApply s region updated).regions.get? n = some r)
    ∧ (∀ n r, s.regions.get? n = some r → r.id = region.id →
        (toggleManagerAssignmentApply s region updated).regions.get? n = some updated)
    ∧ toggleRegionAssignmentApply ms fetchedManagers fetchedRegions
        = ⟨fetchedManagers, fetchedRegions⟩ := by
  refine ⟨?_, ?_, rfl, ?_, ?_, rfl⟩
  · intro hmem
    unfold toggleManagerAssignmentCall
    rw [if_pos]
    rw [List.any_eq_true]
    obtain ⟨m, hm, hid⟩ := List.mem_map.mp hmem
    exact ⟨m, hm, by simp [hid]⟩
  · intro hmem
    unfold toggleManagerAssignmentCall
    rw [if_neg]
    rw [List.any_eq_true]
    rintro ⟨m, hm, hid⟩
    exact hmem (List.mem_map.mpr ⟨m, hm, by simpa using hid⟩)
  · intro n r hr hne
    unfold toggleManagerAssignmentApply
    simp only [List.get?_map, hr, Option.map_some']
    simp [hne]
  · intro n r hr heq
    unfold toggleManagerAssignmentApply
    simp only [List.get?_map, hr, Option.map_some']
    simp [heq]

/-- Witness for C4 at a concrete region, manager and list state, in both
the assigned and the unassigned direction. -/
theorem toggleAssignment_frame_witness :
    toggleManagerAssignmentCall
        ⟨"r", [], "pk", "rid", "c", [⟨"mpk", "M", "m@x", "mid"⟩]⟩
        ⟨"mpk", "M", "m@x", "mid"⟩
      = AssignCall.unassign "rid" "mid"
    ∧ toggleManagerAssignmentCall ⟨"r", [], "pk", "rid", "c", []⟩
        ⟨"mpk", "M", "m@x", "mid"⟩
      = AssignCall.assign "rid" "mid"
    ∧ (toggleManagerAssignmentApply
        ⟨[⟨"r", [], "pk", "rid", "c", []⟩, ⟨"q", [], "qk", "qid", "c", []⟩],
          [⟨"mpk", "M", "m@x", "mid"⟩]⟩
        ⟨"r", [], "pk", "rid", "c", []⟩
        ⟨"r", [], "pk", "rid", "c", [⟨"mpk", "M", "m@x", "mid"⟩]⟩).regions.get? 1
      = some ⟨"q", [], "qk", "qid", "c", []⟩ := by
  refine ⟨?_, ?_, ?_⟩
  · exact (toggleAssignment_frame _ _ ⟨[], []⟩ ⟨"r", [], "pk", "rid", "c", []⟩
      ⟨[], []⟩ [] []).1 (by decide)
  · exact (toggleAssignment_frame _ _ ⟨[], []⟩ ⟨"r", [], "pk", "rid", "c", []⟩
      ⟨[], []⟩ [] []).2.1 (by decide)
  · exact (toggleAssignment_frame ⟨"r", [], "pk", "rid", "c", []⟩
      ⟨"mpk", "M", "m@x", "mid"⟩
      ⟨[⟨"r", [], "pk", "rid", "c", []⟩, ⟨"q", [], "qk", "qid", "c", []⟩],
        [⟨"mpk", "M", "m@x", "mid"⟩]⟩
      ⟨"r", [], "pk", "rid", "c", [⟨"mpk", "M", "m@x", "mid"⟩]⟩
      ⟨[], []⟩ [] []).2.2.2.1 1 ⟨"q", [], "qk", "qid", "c", []⟩ (by decide) (by decide)

/-- C5 counterexample. The claim quantifies over "the Region create
handler" and cites both RegionList variants; in the raw-JSON variant
(`src/types/portal.ts:980-1007`) a submission with the empty object
`\x7b\x7d` as its locations value and a non-empty slug passes validation
and issues the network call — the handler checks only JSON validity and
the slug, never the number of location entries. -/
theorem createRegion_empty_locations_counterexample :
    handleCreateRegionRaw "seattle" (some (Json.obj []))
      = CreateOutcome.callIssued ⟨"seattle", Json.obj []⟩ := rfl

/-- C5 (amended): in the structured-entries RegionList variant, a create
submission whose locations have zero valid entries (empty, or only
entries with blank trimmed names) is rejected client-side with a
validation error and no network call; a submission with a non-empty slug
and at least one valid entry issues the call, and on success the
server's region is appended to the local list without a re-fetch. The
raw-JSON variant instead validates only JSON-object shape and slug, so
`\x7b\x7d` is accepted there. -/
theorem createRegion_structured_validation (slug : String)
    (entries : List LocationEntry) (regions : List RegionRead)
    (newRegion : RegionRead) :
    ((entries.filter (fun l => jsTrim l.name != "")).length = 0 →
      ∃ msg, handleCreateRegionStructured slug entries
        = CreateOutcome.validationError msg)
    ∧ (jsTrim slug ≠ "" → (entries.filter (fun l => jsTrim l.name != "")).length ≠ 0 →
      handleCreateRegionStructured slug entries
        = CreateOutcome.callIssued ⟨jsTrim slug, arrayToLocations entries⟩)
    ∧ appendRegion regions newRegion = regions ++ [newRegion] := by
  refine ⟨?_, ?_, rfl⟩
  · intro hlen
    unfold handleCreateRegionStructured
    by_cases hslug : (jsTrim slug == "") = true
    · rw [if_pos hslug]
      exact ⟨"Slug is required", rfl⟩
    · rw [if_neg hslug, if_pos (by simp [hlen])]
      exact ⟨"At least one location with a name is required", rfl⟩
  · intro hslug hlen
    unfold handleCreateRegionStructured
    rw [if_neg (by simp [hslug]), if_neg (by simp [hlen])]

/-- Witness for C5 (amended) at concrete submissions: an all-blank
entry list is rejected; slug `"seattle"` with entry `("a", "Pool A")`
issues the call with locations `\x7b"a": "Pool A"\x7d`; the created
region is appended. -/
theorem createRegion_structured_validation_witness :
    (∃ msg, handleCreateRegionStructured "seattle" [⟨" ", "x"⟩]
      = CreateOutcome.validationError msg)
    ∧ handleCreateRegionStructured "seattle" [⟨"a", "Pool A"⟩]
      = CreateOutcome.callIssued ⟨"seattle", [("a", "Pool A")]⟩
    ∧ appendRegion [] ⟨"s", [("a", "Pool A")], "pk", "id", "c", []⟩
      = [⟨"s", [("a", "Pool A")], "pk", "id", "c", []⟩] := by
  refine ⟨(createRegion_structured_validation "seattle" [⟨" ", "x"⟩] []
    ⟨"s", [], "pk", "id", "c", []⟩).1 (by decide), ?_, ?_⟩
  · have h := (createRegion_structured_validation "seattle" [⟨"a", "Pool A"⟩] []
      ⟨"s", [], "pk", "id", "c", []⟩).2.1 (by decide) (by decide)
    rw [h]
    rfl
  · exact (createRegion_structured_validation "x" [] []
      ⟨"s", [("a", "Pool A")], "pk", "id", "c", []⟩).2.2

/-- C6. A Manager create submission with an empty region selection is
rejected client-side with a validation error and no network call, as is
a name or email that is empty after trimming; otherwise the call is
issued with the trimmed fields. -/
theorem createManager_validation (name email : String) (slugs : List String) :
    (slugs = [] → ∃ msg, handleCreateManager name email slugs
      = CreateOutcome.validationError msg)
    ∧ (jsTrim name = "" → handleCreateManager name email slugs
      = CreateOutcome.validationError "Name is required")
    ∧ (jsTrim email = "" → jsTrim name ≠ "" → handleCreateManager name email slugs
      = CreateOutcome.validationError "Email is required")
    ∧ (jsTrim name ≠ "" → jsTrim email ≠ "" → slugs ≠ [] →
      handleCreateManager name email slugs
        = CreateOutcome.callIssued ⟨jsTrim name, jsTrim email, slugs⟩) := by
  refine ⟨?_, ?_, ?_, ?_⟩
  · rintro rfl
    unfold handleCreateManager
    by_cases hn : (jsTrim name == "") = true
    · rw [if_pos hn]
      exact ⟨"Name is required", rfl⟩
    · rw [if_neg hn]
      by_cases he : (jsTrim email == "") = true
      · rw [if_pos he]
        exact ⟨"Email is required", rfl⟩
      · rw [if_neg he]
        exact ⟨"At least one region must be selected", rfl⟩
  · intro hn
    unfold handleCreateManager
    rw [if_pos (by simp [hn])]
  · intro he hn
    unfold handleCreateManager
    rw [if_neg (by simp [hn]), if_pos (by simp [he])]
  · intro hn he hs
    unfold handleCreateManager
    rw [if_neg (by simp [hn]), if_neg (by simp [he]),
      if_neg (by simp [List.length_eq_zero, hs])]

/-- Witness for C6 at concrete submissions. -/
theorem createManager_validation_witness :
    (∃ msg, handleCreateManager "John" "j@x" []
      = CreateOutcome.validationError msg)
    ∧ handleCreateManager "  " "j@x" ["r"]
      = CreateOutcome.validationError "Name is required"
    ∧ handleCreateManager "John" " " ["r"]
      = CreateOutcome.validationError "Email is required"
    ∧ handleCreateManager "John" "j@x" ["r"]
      = CreateOutcome.callIssued ⟨"John", "j@x", ["r"]⟩ := by
  refine ⟨(createManager_validation "John" "j@x" []).1 rfl,
    (createManager_validation "  " "j@x" ["r"]).2.1 (by decide),
    (createManager_validation "John" " " ["r"]).2.2.1 (by decide) (by decide), ?_⟩
  have h := (createManager_validation "John" "j@x" ["r"]).2.2.2
    (by decide) (by decide) (by decide)
  rw [h]
  rfl

/-- C8. When a fetch cycle's joined promise rejects, the component sets
its error message (and clears the loading flag) and leaves both
previously held collections exactly as they were. -/
theorem fetchFailure_keeps_collections {α β : Type} (s : FetchState α β)
    (msg : String) :
    (fetchCycle s (Except.error msg)).items = s.items
    ∧ (fetchCycle s (Except.error msg)).lookups = s.lookups
    ∧ (fetchCycle s (Except.error msg)).error = some msg
    ∧ (fetchCycle s (Except.error msg)).loading = false :=
  ⟨rfl, rfl, rfl, rfl⟩

/-- C9. In each entity list, at most one row is in edit mode and at most
one row has an open assignment panel (each is a single optional row id);
starting an edit closes any open assignment panel, opening an assignment
panel closes any open edit, and the mutual-exclusion invariant is
preserved by `startEditing`, `cancelEditing`, `toggleAssigning` and both
save outcomes. -/
theorem panel_exclusive_invariant (s : PanelState) (rowId : String)
    (hinv : panelExclusive s) :
    panelExclusive (startEditingPanel rowId s)
    ∧ (startEditingPanel rowId s).assigningId = none
    ∧ panelExclusive (cancelEditingPanel s)
    ∧ panelExclusive (toggleAssigningPanel rowId s)
    ∧ (toggleAssigningPanel rowId s).editingId = none
    ∧ panelExclusive (saveSuccessPanel s)
    ∧ panelExclusive (saveFailurePanel s) :=
  ⟨Or.inr rfl, rfl, Or.inl rfl, Or.inl rfl, rfl, Or.inl rfl, hinv⟩

/-- Witness for C9 from the initial closed-panels state. -/
theorem panel_exclusive_invariant_witness :
    panelExclusive (⟨none, none⟩ : PanelState)
    ∧ panelExclusive (startEditingPanel "r1" ⟨none, none⟩)
    ∧ (toggleAssigningPanel "r1" (startEditingPanel "r1" ⟨none, none⟩)).editingId
      = none :=
  ⟨Or.inl rfl, (panel_exclusive_invariant ⟨none, none⟩ "r1" (Or.inl rfl)).1,
    (panel_exclusive_invariant (startEditingPanel "r1" ⟨none, none⟩) "r1"
      (Or.inr rfl)).2.2.2.2.1⟩

/-- C10. The raw-JSON locations validation accepts exactly the inputs
that parse to a value whose JS `typeof` is `"object"` and that is not an
array — i.e. precisely `null` and JSON objects — rejecting parse
failures, arrays and all other primitives; in particular the text
`"null"` parses to `null`, passes validation, and, with a non-empty
slug, the create call is issued with `locations` equal to `null`. -/
theorem rawLocations_validation (parsed : Option Json) (slug : String) :
    (locationsRawAccepted parsed = true ↔
      ∃ j, parsed = some j ∧ (j = Json.null ∨ ∃ fields, j = Json.obj fields))
    ∧ (jsTrim slug ≠ "" →
      handleCreateRegionRaw slug (some Json.null)
        = CreateOutcome.callIssued ⟨jsTrim slug, Json.null⟩) := by
  constructor
  · cases parsed with
    | none => simp [locationsRawAccepted]
    | some j =>
      cases j <;> simp [locationsRawAccepted, jsTypeof, jsIsArray]
  · intro hslug
    have hs2 : (jsTrim slug == "") = false := by simp [hslug]
    simp [handleCreateRegionRaw, jsTypeof, jsIsArray, hs2]

/-- Witness for C10: the parsed value `null` with slug `"seattle"`. -/
theorem rawLocations_validation_witness :
    locationsRawAccepted (some Json.null) = true
    ∧ handleCreateRegionRaw "seattle" (some Json.null)
      = CreateOutcome.callIssued ⟨"seattle", Json.null⟩ := by
  refine ⟨rfl, ?_⟩
  have h := (rawLocations_validation (some Json.null) "seattle").2 (by decide)
  rw [h]
  rfl
